import Mathlib

/-!
Verification of the triangle primitive, the surface mesh assembler and the
render geometry builder of the fornjot repository.

The source's `Scalar` type (a wrapper around `f64`) is modelled by `ℚ`, so
every arithmetic operation of the embedding is exact.  `Point<2>` and
`Point<3>` become `Point2` and `Point3`; the source's `Vector` values (edge
differences) are carried by the same coordinate records.
-/

/-- Modelled from the spec: the scalar type's default epsilon (the `approx`
crate's `f64` default, `f64::EPSILON = 2 ^ (-52)`), the threshold used by
`Triangle::is_valid`.  The `approx` dependency is outside `src/`. -/
def default_epsilon : ℚ := 1 / 2 ^ 52

/-- A point (or vector) with two scalar coordinates: `Point<2>` of `fj-math`. -/
structure Point2 where
  x : ℚ
  y : ℚ
  deriving DecidableEq

/-- A point (or vector) with three scalar coordinates: `Point<3>` of `fj-math`. -/
structure Point3 where
  x : ℚ
  y : ℚ
  z : ℚ
  deriving DecidableEq

/-- Modelled from the spec: coordinate-wise difference of points, the
source's `b - a` yielding a `Vector<2>` (the `Vector` code is not under
`src/`). -/
def Point2.sub (p q : Point2) : Point2 :=
  ⟨p.x - q.x, p.y - q.y⟩

/-- Modelled from the spec: coordinate-wise difference of points, the
source's `b - a` yielding a `Vector<3>`. -/
def Point3.sub (p q : Point3) : Point3 :=
  ⟨p.x - q.x, p.y - q.y, p.z - q.z⟩

/-- Modelled from the spec: `Vector::<2>::dot`, the euclidean inner product. -/
def Point2.dot (v w : Point2) : ℚ :=
  v.x * w.x + v.y * w.y

/-- Modelled from the spec: `Vector::<3>::dot`, the euclidean inner product. -/
def Point3.dot (v w : Point3) : ℚ :=
  v.x * w.x + v.y * w.y + v.z * w.z

/-- Modelled from the spec: `Vector::<2>::outer`, the scalar cross product of
two plane vectors. -/
def Point2.outer (v w : Point2) : ℚ :=
  v.x * w.y - v.y * w.x

/-- Modelled from the spec: `Vector::<3>::outer`, the cross product of two
space vectors. -/
def Point3.outer (v w : Point3) : Point3 :=
  ⟨v.y * w.z - v.z * w.y, v.z * w.x - v.x * w.z, v.x * w.y - v.y * w.x⟩

/-- `Triangle<2>` of `fj-math`: three points of the plane.  The source stores
them as the array `points: [Point<2>; 3]`; here the three entries are the
fields `a`, `b`, `c`, in order. -/
structure Triangle2 where
  a : Point2
  b : Point2
  c : Point2
  deriving DecidableEq

/-- `Triangle<3>` of `fj-math`: three points of space. -/
structure Triangle3 where
  a : Point3
  b : Point3
  c : Point3
  deriving DecidableEq

/-- `Triangle::<2>::is_valid`: the area (magnitude of the outer product of the
edge vectors `b - a` and `c - a`; for a scalar the magnitude is the absolute
value) must strictly exceed the scalar's default epsilon. -/
def Triangle2.is_valid (t : Triangle2) : Prop :=
  default_epsilon < |Point2.outer (t.b.sub t.a) (t.c.sub t.a)|

instance (t : Triangle2) : Decidable t.is_valid := by
  unfold Triangle2.is_valid
  infer_instance

/-- `Triangle::<3>::is_valid`.  The source compares
`(b - a).outer(&(c - a)).magnitude() > epsilon`; with both sides nonnegative
this holds exactly when the squared magnitude (the outer product dotted with
itself, a rational) exceeds the squared epsilon, which is the executable form
used here.  The equivalence with the square-root formulation is proved below. -/
def Triangle3.is_valid (t : Triangle3) : Prop :=
  default_epsilon ^ 2 <
    Point3.dot (Point3.outer (t.b.sub t.a) (t.c.sub t.a))
      (Point3.outer (t.b.sub t.a) (t.c.sub t.a))

instance (t : Triangle3) : Decidable t.is_valid := by
  unfold Triangle3.is_valid
  infer_instance

/-- The denominator `d00 * d11 - d01 * d01` computed inside
`Triangle::point_to_barycentric_coords`, for `Triangle<2>`. -/
def Triangle2.bary_denom (t : Triangle2) : ℚ :=
  let v0 := t.b.sub t.a
  let v1 := t.c.sub t.a
  let d00 := v0.dot v0
  let d01 := v0.dot v1
  let d11 := v1.dot v1
  d00 * d11 - d01 * d01

/-- The denominator `d00 * d11 - d01 * d01` computed inside
`Triangle::point_to_barycentric_coords`, for `Triangle<3>`. -/
def Triangle3.bary_denom (t : Triangle3) : ℚ :=
  let v0 := t.b.sub t.a
  let v1 := t.c.sub t.a
  let d00 := v0.dot v0
  let d01 := v0.dot v1
  let d11 := v1.dot v1
  d00 * d11 - d01 * d01

/-- `Triangle::<2>::point_from_barycentric_coords`: the affine combination
`a * wa + b * wb + c * wc` of the three vertices. -/
def Triangle2.point_from_barycentric_coords (t : Triangle2) (w : ℚ × ℚ × ℚ) :
    Point2 :=
  ⟨t.a.x * w.1 + t.b.x * w.2.1 + t.c.x * w.2.2,
   t.a.y * w.1 + t.b.y * w.2.1 + t.c.y * w.2.2⟩

/-- `Triangle::<3>::point_from_barycentric_coords`. -/
def Triangle3.point_from_barycentric_coords (t : Triangle3) (w : ℚ × ℚ × ℚ) :
    Point3 :=
  ⟨t.a.x * w.1 + t.b.x * w.2.1 + t.c.x * w.2.2,
   t.a.y * w.1 + t.b.y * w.2.1 + t.c.y * w.2.2,
   t.a.z * w.1 + t.b.z * w.2.1 + t.c.z * w.2.2⟩

/-- `Triangle::<2>::point_to_barycentric_coords` (Ericson, Real-Time Collision
Detection, pp. 47-48), returned as the triple `(u, v, w)`. -/
def Triangle2.point_to_barycentric_coords (t : Triangle2) (p : Point2) :
    ℚ × ℚ × ℚ :=
  let v0 := t.b.sub t.a
  let v1 := t.c.sub t.a
  let v2 := p.sub t.a
  let d00 := v0.dot v0
  let d01 := v0.dot v1
  let d11 := v1.dot v1
  let d20 := v2.dot v0
  let d21 := v2.dot v1
  let denom := d00 * d11 - d01 * d01
  let v := (d11 * d20 - d01 * d21) / denom
  let w := (d00 * d21 - d01 * d20) / denom
  let u := 1 - v - w
  (u, v, w)

/-- `Triangle::<3>::point_to_barycentric_coords`. -/
def Triangle3.point_to_barycentric_coords (t : Triangle3) (p : Point3) :
    ℚ × ℚ × ℚ :=
  let v0 := t.b.sub t.a
  let v1 := t.c.sub t.a
  let v2 := p.sub t.a
  let d00 := v0.dot v0
  let d01 := v0.dot v1
  let d11 := v1.dot v1
  let d20 := v2.dot v0
  let d21 := v2.dot v1
  let denom := d00 * d11 - d01 * d01
  let v := (d11 * d20 - d01 * d21) / denom
  let w := (d00 * d21 - d01 * d20) / denom
  let u := 1 - v - w
  (u, v, w)

/-- A degenerate `Triangle<2>`: the three points are collapsed onto a line or
a single point, that is, the edge vectors `b - a` and `c - a` are linearly
dependent. -/
def Triangle2.degenerate (t : Triangle2) : Prop :=
  ∃ k l : ℚ, (k ≠ 0 ∨ l ≠ 0) ∧
    k * (t.b.sub t.a).x + l * (t.c.sub t.a).x = 0 ∧
    k * (t.b.sub t.a).y + l * (t.c.sub t.a).y = 0

/-- A degenerate `Triangle<3>`: collinear or coincident points, that is,
linearly dependent edge vectors. -/
def Triangle3.degenerate (t : Triangle3) : Prop :=
  ∃ k l : ℚ, (k ≠ 0 ∨ l ≠ 0) ∧
    k * (t.b.sub t.a).x + l * (t.c.sub t.a).x = 0 ∧
    k * (t.b.sub t.a).y + l * (t.c.sub t.a).y = 0 ∧
    k * (t.b.sub t.a).z + l * (t.c.sub t.a).z = 0

/-- The `Winding` enum: counter-clockwise or clockwise. -/
inductive Winding where
  | Ccw
  | Cw
  deriving DecidableEq

/-- Modelled from the spec: the `robust` crate's `orient2d` predicate computes
the exact sign of the orientation determinant of the three input points; over
the exact scalars of this embedding it is the determinant itself. -/
def orient2d (pa pb pc : Point2) : ℚ :=
  (pa.x - pc.x) * (pb.y - pc.y) - (pa.y - pc.y) * (pb.x - pc.x)

/-- `Triangle::<2>::winding`: `Some(Cw)` for strictly negative orientation,
`Some(Ccw)` for strictly positive orientation, `None` otherwise. -/
def Triangle2.winding (t : Triangle2) : Option Winding :=
  let o := orient2d t.a t.b t.c
  if o < 0 then some Winding.Cw
  else if 0 < o then some Winding.Ccw
  else none

/-- Modelled from the spec: the derived total order on points is lexicographic
over the coordinates (the `Ord` derivation lives in the `Point` code, which is
not under `src/`). -/
def Point2.le (p q : Point2) : Prop :=
  p.x < q.x ∨ (p.x = q.x ∧ p.y ≤ q.y)

/-- Modelled from the spec: lexicographic order on three coordinates. -/
def Point3.le (p q : Point3) : Prop :=
  p.x < q.x ∨ (p.x = q.x ∧ (p.y < q.y ∨ (p.y = q.y ∧ p.z ≤ q.z)))

instance : DecidableRel Point2.le := fun p q => by
  unfold Point2.le
  infer_instance

instance : DecidableRel Point3.le := fun p q => by
  unfold Point3.le
  infer_instance

instance : IsTotal Point2 Point2.le where
  total p q := by
    unfold Point2.le
    rcases lt_trichotomy p.x q.x with h | h | h
    · exact Or.inl (Or.inl h)
    · rcases le_total p.y q.y with h' | h'
      · exact Or.inl (Or.inr ⟨h, h'⟩)
      · exact Or.inr (Or.inr ⟨h.symm, h'⟩)
    · exact Or.inr (Or.inl h)

instance : IsTotal Point3 Point3.le where
  total p q := by
    unfold Point3.le
    rcases lt_trichotomy p.x q.x with h | h | h
    · exact Or.inl (Or.inl h)
    · rcases lt_trichotomy p.y q.y with h' | h' | h'
      · exact Or.inl (Or.inr ⟨h, Or.inl h'⟩)
      · rcases le_total p.z q.z with h'' | h''
        · exact Or.inl (Or.inr ⟨h, Or.inr ⟨h', h''⟩⟩)
        · exact Or.inr (Or.inr ⟨h.symm, Or.inr ⟨h'.symm, h''⟩⟩)
      · exact Or.inr (Or.inr ⟨h.symm, Or.inl h'⟩)
    · exact Or.inr (Or.inl h)

instance : IsTrans Point2 Point2.le where
  trans p q r hpq hqr := by
    unfold Point2.le at *
    rcases hpq with h1 | ⟨e1, h1⟩ <;> rcases hqr with h2 | ⟨e2, h2⟩
    · exact Or.inl (lt_trans h1 h2)
    · exact Or.inl (by rw [← e2]; exact h1)
    · exact Or.inl (by rw [e1]; exact h2)
    · exact Or.inr ⟨e1.trans e2, le_trans h1 h2⟩

instance : IsTrans Point3 Point3.le where
  trans p q r hpq hqr := by
    unfold Point3.le at *
    rcases hpq with h1 | ⟨e1, h1⟩ <;> rcases hqr with h2 | ⟨e2, h2⟩
    · exact Or.inl (lt_trans h1 h2)
    · exact Or.inl (by rw [← e2]; exact h1)
    · exact Or.inl (by rw [e1]; exact h2)
    · refine Or.inr ⟨e1.trans e2, ?_⟩
      rcases h1 with h1 | ⟨f1, h1⟩ <;> rcases h2 with h2 | ⟨f2, h2⟩
      · exact Or.inl (lt_trans h1 h2)
      · exact Or.inl (by rw [← f2]; exact h1)
      · exact Or.inl (by rw [f1]; exact h2)
      · exact Or.inr ⟨f1.trans f2, le_trans h1 h2⟩

instance : IsAntisymm Point2 Point2.le where
  antisymm p q hpq hqp := by
    unfold Point2.le at *
    rcases hpq with h1 | ⟨e1, h1⟩ <;> rcases hqp with h2 | ⟨e2, h2⟩
    · exact absurd (lt_trans h1 h2) (lt_irrefl _)
    · exact absurd h1 (by rw [e2]; exact lt_irrefl _)
    · exact absurd h2 (by rw [e1]; exact lt_irrefl _)
    · have h3 : p.y = q.y := le_antisymm h1 h2
      cases p
      cases q
      simp_all

instance : IsAntisymm Point3 Point3.le where
  antisymm p q hpq hqp := by
    unfold Point3.le at *
    rcases hpq with h1 | ⟨e1, h1⟩ <;> rcases hqp with h2 | ⟨e2, h2⟩
    · exact absurd (lt_trans h1 h2) (lt_irrefl _)
    · exact absurd h1 (by rw [e2]; exact lt_irrefl _)
    · exact absurd h2 (by rw [e1]; exact lt_irrefl _)
    · rcases h1 with h1 | ⟨f1, h1⟩ <;> rcases h2 with h2 | ⟨f2, h2⟩
      · exact absurd (lt_trans h1 h2) (lt_irrefl _)
      · exact absurd h1 (by rw [f2]; exact lt_irrefl _)
      · exact absurd h2 (by rw [f1]; exact lt_irrefl _)
      · have h3 : p.z = q.z := le_antisymm h1 h2
        cases p
        cases q
        simp_all

/-- `Triangle::normalize` for `Triangle<2>`: `self.points.sort(); self` — the
same points, reordered into the total (lexicographic) point order.  The sort
of the three-element array is embedded as `List.insertionSort`; the `getD`
defaults are never reached, since the sorted list always has three entries. -/
def Triangle2.normalize (t : Triangle2) : Triangle2 :=
  let l := List.insertionSort Point2.le [t.a, t.b, t.c]
  ⟨l.getD 0 t.a, l.getD 1 t.a, l.getD 2 t.a⟩

/-- `Triangle::normalize` for `Triangle<3>`. -/
def Triangle3.normalize (t : Triangle3) : Triangle3 :=
  let l := List.insertionSort Point3.le [t.a, t.b, t.c]
  ⟨l.getD 0 t.a, l.getD 1 t.a, l.getD 2 t.a⟩

/-- An axis-aligned bounding box in 2D parameter space (`Aabb<2>`). -/
structure Aabb2 where
  min : Point2
  max : Point2

/-- Modelled from the spec: the `Surface` collaborator of
`SurfaceMesh::from_surface` (`topology::surface::Surface`, not under `src/`):
`approximate` yields the parametric sample points within a boundary, and the
geometry maps a parametric point to its embedded-space position. -/
structure SurfaceGeometry where
  approximate : Aabb2 → List Point2
  point_from_local : Point2 → Point3

/-- Modelled from the spec: a `TriangulationPoint` carries a sample's
parametric surface coordinate together with its embedded-space coordinate
(the type's own file is not under `src/`). -/
structure TriangulationPoint where
  point_surface : Point2
  point_global : Point3
  deriving DecidableEq

/-- Modelled from the spec: `TriangulationPoint::from_surface_point` converts
a parametric sample using the surface geometry's parametric-to-embedded map. -/
def TriangulationPoint.from_surface_point (geometry : SurfaceGeometry)
    (point_surface : Point2) : TriangulationPoint :=
  ⟨point_surface, geometry.point_from_local point_surface⟩

/-- `MeshTriangle`: three triangulation points. -/
structure MeshTriangle where
  points : TriangulationPoint × TriangulationPoint × TriangulationPoint
  deriving DecidableEq

/-- `SurfaceMesh`: the interior sample points and the full triangle list. -/
structure SurfaceMesh where
  points : List TriangulationPoint
  triangles : List MeshTriangle
  deriving DecidableEq

/-- `SurfaceMesh::from_surface`.  The Delaunay routine
(`extra::triangulate::delaunay::triangles`, whose code is not under `src/`)
is passed in as the argument `delaunay`, applied to the edge constraints
(always the empty list here, matching the source's `triangles([], all_points)`)
and the merged point set.  The tolerance parameter is embedded exactly as in
the source, whose signature binds it to `_` and never reads it. -/
def SurfaceMesh.from_surface
    (delaunay : List (TriangulationPoint × TriangulationPoint) →
      List TriangulationPoint →
      List (TriangulationPoint × TriangulationPoint × TriangulationPoint))
    (surface : SurfaceGeometry) (boundary : Aabb2) (tolerance : ℚ) :
    SurfaceMesh :=
  let surface_points := (surface.approximate boundary).map
    (TriangulationPoint.from_surface_point surface)
  let boundary_points :=
    ([⟨boundary.min.x, boundary.min.y⟩,
      ⟨boundary.min.x, boundary.max.y⟩,
      ⟨boundary.max.x, boundary.min.y⟩,
      ⟨boundary.max.x, boundary.max.y⟩] : List Point2).map
      (TriangulationPoint.from_surface_point surface)
  let all_points := surface_points ++ boundary_points
  let triangles := (delaunay [] all_points).map (fun tri => MeshTriangle.mk tri)
  ⟨surface_points, triangles⟩

/-- A render vertex of `Geometry::new`: position and the per-face normal. -/
structure Vertex where
  position : Point3
  normal : Point3
  deriving DecidableEq

/-- The render geometry: the vertex buffer contents, the index buffer contents
and `num_indices`.  The `wgpu` buffer objects hold exactly these contents. -/
structure Geometry where
  vertices : List Vertex
  indices : List ℕ
  num_indices : ℕ
  deriving DecidableEq

/-- One step of the inner loop of `Geometry::new`: push the next index
(`vertices.len()`) and the vertex itself. -/
def pushVertex (s : List ℕ × List Vertex) (position normal : Point3) :
    List ℕ × List Vertex :=
  let index := s.2.length
  (s.1 ++ [index], s.2 ++ [⟨position, normal⟩])

/-- The per-triangle body of the loop of `Geometry::new`: compute the face
normal `ab × ac` and emit the three vertices with three sequential indices.
The source's `f64`-to-`f32` narrowing of the coordinates is the identity in
this exact-arithmetic embedding. -/
def emitTriangle (s : List ℕ × List Vertex) (t : Triangle3) :
    List ℕ × List Vertex :=
  let normal := Point3.outer (t.b.sub t.a) (t.c.sub t.a)
  pushVertex (pushVertex (pushVertex s t.a normal) t.b normal) t.c normal

/-- `Geometry::new`: build the flat-shaded vertex and index buffers by folding
the loop body over the mesh's triangle list; the final
`indices.len().try_into::<u32>()` panics (modelled as `none`) exactly when the
index count exceeds `u32::MAX = 4294967295`.  On the success path every index
pushed is below the count, so the source's intermediate `as u32` casts are
lossless there. -/
def Geometry.new (mesh : List Triangle3) : Option Geometry :=
  let s := mesh.foldl emitTriangle ([], [])
  if s.1.length ≤ 4294967295 then some ⟨s.2, s.1, s.1.length⟩ else none

/-- A concrete surface model whose approximation yields a single sample. -/
def sampleSurface : SurfaceGeometry :=
  ⟨fun _ => [⟨0, 0⟩], fun p => ⟨p.x, p.y, 0⟩⟩

/-- A concrete surface model whose approximation yields the same sample
twice. -/
def duplicateSurface : SurfaceGeometry :=
  ⟨fun _ => [⟨0, 0⟩, ⟨0, 0⟩], fun p => ⟨p.x, p.y, 0⟩⟩

/-- A trivial Delaunay collaborator returning no triangles. -/
def emptyDelaunay : List (TriangulationPoint × TriangulationPoint) →
    List TriangulationPoint →
    List (TriangulationPoint × TriangulationPoint × TriangulationPoint) :=
  fun _ _ => []

/-- The unit parameter-space bounding box. -/
def unitBoundary : Aabb2 :=
  ⟨⟨0, 0⟩, ⟨1, 1⟩⟩

/-- A concrete space triangle, used to instantiate the render builder. -/
def sampleTri : Triangle3 :=
  ⟨⟨0, 0, 0⟩, ⟨1, 0, 0⟩, ⟨0, 1, 0⟩⟩

/-- Lagrange's identity in the plane: the barycentric denominator is the
square of the scalar outer product of the edge vectors. -/
theorem Triangle2.bary_denom_eq2 (t : Triangle2) :
    t.bary_denom = Point2.outer (t.b.sub t.a) (t.c.sub t.a) ^ 2 := by
  simp only [Triangle2.bary_denom, Point2.sub, Point2.dot, Point2.outer]
  ring

/-- Lagrange's identity in space: the barycentric denominator is the squared
magnitude of the cross product of the edge vectors. -/
theorem Triangle3.bary_denom_eq3 (t : Triangle3) :
    t.bary_denom =
      Point3.dot (Point3.outer (t.b.sub t.a) (t.c.sub t.a))
        (Point3.outer (t.b.sub t.a) (t.c.sub t.a)) := by
  simp only [Triangle3.bary_denom, Point3.sub, Point3.dot, Point3.outer]
  ring

theorem Triangle2.denom_ne_zero_of_valid2 {t : Triangle2} (hv : t.is_valid) :
    t.bary_denom ≠ 0 := by
  rw [Triangle2.bary_denom_eq2]
  refine pow_ne_zero 2 fun h => ?_
  rw [Triangle2.is_valid, h, abs_zero] at hv
  exact absurd hv (by norm_num [default_epsilon])

theorem Triangle3.denom_ne_zero_of_valid3 {t : Triangle3} (hv : t.is_valid) :
    t.bary_denom ≠ 0 := by
  rw [Triangle3.bary_denom_eq3]
  have h0 : (0:ℚ) < default_epsilon ^ 2 := by norm_num [default_epsilon]
  exact ne_of_gt (lt_trans h0 hv)

/-- A plane triangle is degenerate exactly when the scalar outer product of
its edge vectors vanishes. -/
theorem Triangle2.degenerate_iff_outer2 (t : Triangle2) :
    t.degenerate ↔ Point2.outer (t.b.sub t.a) (t.c.sub t.a) = 0 := by
  obtain ⟨⟨pax, pay⟩, ⟨pbx, pby⟩, ⟨pcx, pcy⟩⟩ := t
  simp only [Triangle2.degenerate, Point2.sub, Point2.outer]
  constructor
  · rintro ⟨k, l, hkl, hx, hy⟩
    rcases hkl with hk | hl
    · have h1 : k * ((pbx - pax) * (pcy - pay) - (pby - pay) * (pcx - pax)) = 0 := by
        linear_combination (pcy - pay) * hx - (pcx - pax) * hy
      rcases mul_eq_zero.mp h1 with h | h
      · exact absurd h hk
      · exact h
    · have h1 : l * ((pbx - pax) * (pcy - pay) - (pby - pay) * (pcx - pax)) = 0 := by
        linear_combination (pbx - pax) * hy - (pby - pay) * hx
      rcases mul_eq_zero.mp h1 with h | h
      · exact absurd h hl
      · exact h
  · intro hc
    by_cases h0 : pbx - pax = 0
    · by_cases h1 : pby - pay = 0
      · exact ⟨1, 0, Or.inl one_ne_zero, by rw [h0]; ring, by rw [h1]; ring⟩
      · exact ⟨pcy - pay, -(pby - pay), Or.inr (neg_ne_zero.mpr h1),
          by linear_combination hc, by ring⟩
    · exact ⟨pcx - pax, -(pbx - pax), Or.inr (neg_ne_zero.mpr h0),
        by ring, by linear_combination -hc⟩

theorem sum_three_sq_eq_zero {x y z : ℚ} (h : x * x + y * y + z * z = 0) :
    x = 0 ∧ y = 0 ∧ z = 0 := by
  refine ⟨?_, ?_, ?_⟩ <;>
    nlinarith [mul_self_nonneg x, mul_self_nonneg y, mul_self_nonneg z]

/-- A space triangle is degenerate exactly when the cross product of its edge
vectors vanishes. -/
theorem Triangle3.degenerate_iff_outer3 (t : Triangle3) :
    t.degenerate ↔ Point3.outer (t.b.sub t.a) (t.c.sub t.a) = ⟨0, 0, 0⟩ := by
  obtain ⟨⟨pax, pay, paz⟩, ⟨pbx, pby, pbz⟩, ⟨pcx, pcy, pcz⟩⟩ := t
  simp only [Triangle3.degenerate, Point3.sub, Point3.outer, Point3.mk.injEq]
  constructor
  · rintro ⟨k, l, hkl, hx, hy, hz⟩
    rcases hkl with hk | hl
    · refine ⟨?_, ?_, ?_⟩
      · rcases mul_eq_zero.mp (show k * ((pby - pay) * (pcz - paz) -
            (pbz - paz) * (pcy - pay)) = 0 by
            linear_combination (pcz - paz) * hy - (pcy - pay) * hz)
          with h | h
        · exact absurd h hk
        · exact h
      · rcases mul_eq_zero.mp (show k * ((pbz - paz) * (pcx - pax) -
            (pbx - pax) * (pcz - paz)) = 0 by
            linear_combination (pcx - pax) * hz - (pcz - paz) * hx)
          with h | h
        · exact absurd h hk
        · exact h
      · rcases mul_eq_zero.mp (show k * ((pbx - pax) * (pcy - pay) -
            (pby - pay) * (pcx - pax)) = 0 by
            linear_combination (pcy - pay) * hx - (pcx - pax) * hy)
          with h | h
        · exact absurd h hk
        · exact h
    · refine ⟨?_, ?_, ?_⟩
      · rcases mul_eq_zero.mp (show l * ((pby - pay) * (pcz - paz) -
            (pbz - paz) * (pcy - pay)) = 0 by
            linear_combination (pby - pay) * hz - (pbz - paz) * hy)
          with h | h
        · exact absurd h hl
        · exact h
      · rcases mul_eq_zero.mp (show l * ((pbz - paz) * (pcx - pax) -
            (pbx - pax) * (pcz - paz)) = 0 by
            linear_combination (pbz - paz) * hx - (pbx - pax) * hz)
          with h | h
        · exact absurd h hl
        · exact h
      · rcases mul_eq_zero.mp (show l * ((pbx - pax) * (pcy - pay) -
            (pby - pay) * (pcx - pax)) = 0 by
            linear_combination (pbx - pax) * hy - (pby - pay) * hx)
          with h | h
        · exact absurd h hl
        · exact h
  · rintro ⟨hcx, hcy, hcz⟩
    by_cases h1 : pbx - pax ≠ 0
    · exact ⟨pcx - pax, -(pbx - pax), Or.inr (neg_ne_zero.mpr h1),
        by ring, by linear_combination -hcz, by linear_combination hcy⟩
    · by_cases h2 : pby - pay ≠ 0
      · exact ⟨pcy - pay, -(pby - pay), Or.inr (neg_ne_zero.mpr h2),
          by linear_combination hcz, by ring, by linear_combination -hcx⟩
      · by_cases h3 : pbz - paz ≠ 0
        · exact ⟨pcz - paz, -(pbz - paz), Or.inr (neg_ne_zero.mpr h3),
            by linear_combination -hcy, by linear_combination hcx, by ring⟩
        · push_neg at h1 h2 h3
          exact ⟨1, 0, Or.inl one_ne_zero,
            by rw [h1]; ring, by rw [h2]; ring, by rw [h3]; ring⟩

theorem Triangle2.round_trip2 (t : Triangle2) (wa wb wc : ℚ)
    (hv : t.is_valid) (hw : wa + wb + wc = 1) :
    t.point_to_barycentric_coords (t.point_from_barycentric_coords (wa, wb, wc))
      = (wa, wb, wc) := by
  have hd : t.bary_denom ≠ 0 := Triangle2.denom_ne_zero_of_valid2 hv
  have hwa : wa = 1 - wb - wc := by linarith
  subst hwa
  obtain ⟨⟨pax, pay⟩, ⟨pbx, pby⟩, ⟨pcx, pcy⟩⟩ := t
  simp only [Triangle2.bary_denom, Point2.sub, Point2.dot] at hd
  simp only [Triangle2.point_to_barycentric_coords,
    Triangle2.point_from_barycentric_coords, Point2.sub, Point2.dot,
    Prod.mk.injEq]
  refine ⟨?_, ?_, ?_⟩
  · field_simp [hd]
    ring
  · rw [div_eq_iff hd]
    ring
  · rw [div_eq_iff hd]
    ring

theorem Triangle3.round_trip3 (t : Triangle3) (wa wb wc : ℚ)
    (hv : t.is_valid) (hw : wa + wb + wc = 1) :
    t.point_to_barycentric_coords (t.point_from_barycentric_coords (wa, wb, wc))
      = (wa, wb, wc) := by
  have hd : t.bary_denom ≠ 0 := Triangle3.denom_ne_zero_of_valid3 hv
  have hwa : wa = 1 - wb - wc := by linarith
  subst hwa
  obtain ⟨⟨pax, pay, paz⟩, ⟨pbx, pby, pbz⟩, ⟨pcx, pcy, pcz⟩⟩ := t
  simp only [Triangle3.bary_denom, Point3.sub, Point3.dot] at hd
  simp only [Triangle3.point_to_barycentric_coords,
    Triangle3.point_from_barycentric_coords, Point3.sub, Point3.dot,
    Prod.mk.injEq]
  refine ⟨?_, ?_, ?_⟩
  · field_simp [hd]
    ring
  · rw [div_eq_iff hd]
    ring
  · rw [div_eq_iff hd]
    ring

theorem Point3.dot_self_eq_zero {v : Point3} :
    v.dot v = 0 ↔ v = ⟨0, 0, 0⟩ := by
  obtain ⟨vx, vy, vz⟩ := v
  simp only [Point3.dot, Point3.mk.injEq]
  constructor
  · exact fun h => sum_three_sq_eq_zero h
  · rintro ⟨h1, h2, h3⟩
    rw [h1, h2, h3]
    ring

/-- C1: for every non-degenerate (`is_valid`) triangle of dimension 2 or 3 and
every weight triple summing to one, `point_to_barycentric_coords` applied to
`point_from_barycentric_coords` recovers the weights exactly. -/
theorem spec_C1_bary_round_trip :
    (∀ (t : Triangle2) (wa wb wc : ℚ), t.is_valid → wa + wb + wc = 1 →
      t.point_to_barycentric_coords
        (t.point_from_barycentric_coords (wa, wb, wc)) = (wa, wb, wc)) ∧
    (∀ (t : Triangle3) (wa wb wc : ℚ), t.is_valid → wa + wb + wc = 1 →
      t.point_to_barycentric_coords
        (t.point_from_barycentric_coords (wa, wb, wc)) = (wa, wb, wc)) :=
  ⟨fun t wa wb wc hv hw => t.round_trip2 wa wb wc hv hw,
   fun t wa wb wc hv hw => t.round_trip3 wa wb wc hv hw⟩

/-- Witness for C1: the round-trip evaluated at the triangle
`(0,0), (1,0), (0,1)` (and its 3D embedding) with weights `(1/2, 1/4, 1/4)`. -/
theorem spec_C1_witness :
    (Triangle2.mk ⟨0, 0⟩ ⟨1, 0⟩ ⟨0, 1⟩).is_valid ∧
    (1 : ℚ) / 2 + 1 / 4 + 1 / 4 = 1 ∧
    (Triangle2.mk ⟨0, 0⟩ ⟨1, 0⟩ ⟨0, 1⟩).point_to_barycentric_coords
      ((Triangle2.mk ⟨0, 0⟩ ⟨1, 0⟩ ⟨0, 1⟩).point_from_barycentric_coords
        (1 / 2, 1 / 4, 1 / 4)) = (1 / 2, 1 / 4, 1 / 4) ∧
    (Triangle3.mk ⟨0, 0, 0⟩ ⟨1, 0, 0⟩ ⟨0, 1, 0⟩).point_to_barycentric_coords
      ((Triangle3.mk ⟨0, 0, 0⟩ ⟨1, 0, 0⟩ ⟨0, 1, 0⟩).point_from_barycentric_coords
        (1 / 2, 1 / 4, 1 / 4)) = (1 / 2, 1 / 4, 1 / 4) :=
  ⟨by norm_num [Triangle2.is_valid, Point2.sub, Point2.outer, default_epsilon], by norm_num,
   spec_C1_bary_round_trip.1 _ _ _ _
     (by norm_num [Triangle2.is_valid, Point2.sub, Point2.outer, default_epsilon]) (by norm_num),
   spec_C1_bary_round_trip.2 _ _ _ _
     (by norm_num [Triangle3.is_valid, Point3.sub, Point3.outer, Point3.dot, default_epsilon])
     (by norm_num)⟩

/-- C2: for either dimension, the denominator `d00 * d11 - d01 * d01` of
`point_to_barycentric_coords` vanishes exactly on the degenerate (collinear or
coincident) triangles, and is nonzero under the `is_valid` precondition, so
the division is well-defined for callers that check `is_valid` first. -/
theorem spec_C2_degenerate_denominator :
    (∀ t : Triangle2,
      (t.degenerate ↔ t.bary_denom = 0) ∧ (t.is_valid → t.bary_denom ≠ 0)) ∧
    (∀ t : Triangle3,
      (t.degenerate ↔ t.bary_denom = 0) ∧ (t.is_valid → t.bary_denom ≠ 0)) := by
  constructor
  · intro t
    refine ⟨?_, Triangle2.denom_ne_zero_of_valid2⟩
    rw [Triangle2.bary_denom_eq2, sq_eq_zero_iff]
    exact Triangle2.degenerate_iff_outer2 t
  · intro t
    refine ⟨?_, Triangle3.denom_ne_zero_of_valid3⟩
    rw [Triangle3.bary_denom_eq3, Point3.dot_self_eq_zero]
    exact Triangle3.degenerate_iff_outer3 t

/-- Witness for C2: a concrete collinear triangle has zero denominator and a
concrete valid triangle has a nonzero one, in both dimensions. -/
theorem spec_C2_witness :
    (Triangle2.mk ⟨0, 0⟩ ⟨1, 1⟩ ⟨2, 2⟩).bary_denom = 0 ∧
    (Triangle2.mk ⟨0, 0⟩ ⟨1, 0⟩ ⟨0, 1⟩).bary_denom ≠ 0 ∧
    (Triangle3.mk ⟨0, 0, 0⟩ ⟨1, 1, 0⟩ ⟨2, 2, 0⟩).bary_denom = 0 ∧
    (Triangle3.mk ⟨0, 0, 0⟩ ⟨1, 0, 0⟩ ⟨0, 1, 0⟩).bary_denom ≠ 0 :=
  ⟨(spec_C2_degenerate_denominator.1 _).1.mp
      ⟨2, -1, Or.inl two_ne_zero, by norm_num [Point2.sub],
        by norm_num [Point2.sub]⟩,
   (spec_C2_degenerate_denominator.1 _).2
     (by norm_num [Triangle2.is_valid, Point2.sub, Point2.outer, default_epsilon]),
   (spec_C2_degenerate_denominator.2 _).1.mp
      ⟨2, -1, Or.inl two_ne_zero, by norm_num [Point3.sub],
        by norm_num [Point3.sub], by norm_num [Point3.sub]⟩,
   (spec_C2_degenerate_denominator.2 _).2
     (by norm_num [Triangle3.is_valid, Point3.sub, Point3.outer, Point3.dot, default_epsilon])⟩

/-- C3: `winding` returns `some Ccw` exactly when the exact orientation of the
three points is strictly positive, `some Cw` exactly when it is strictly
negative, and `none` exactly when it is zero; in particular `some Ccw` for
`(0,0), (1,0), (0,1)`, `some Cw` for the reverse, and `none` for collinear
points. -/
theorem spec_C3_winding_sign :
    (∀ t : Triangle2,
      (t.winding = some Winding.Ccw ↔ 0 < orient2d t.a t.b t.c) ∧
      (t.winding = some Winding.Cw ↔ orient2d t.a t.b t.c < 0) ∧
      (t.winding = none ↔ orient2d t.a t.b t.c = 0)) ∧
    (Triangle2.mk ⟨0, 0⟩ ⟨1, 0⟩ ⟨0, 1⟩).winding = some Winding.Ccw ∧
    (Triangle2.mk ⟨0, 1⟩ ⟨1, 0⟩ ⟨0, 0⟩).winding = some Winding.Cw ∧
    (Triangle2.mk ⟨0, 0⟩ ⟨1, 0⟩ ⟨2, 0⟩).winding = none := by
  refine ⟨fun t => ?_, by norm_num [Triangle2.winding, orient2d],
    by norm_num [Triangle2.winding, orient2d], by norm_num [Triangle2.winding, orient2d]⟩
  simp only [Triangle2.winding]
  split_ifs with h1 h2
  · exact ⟨by simp [not_lt.mpr h1.le], by simp [h1], by simp [h1.ne]⟩
  · exact ⟨by simp [h2], by simp [h1], by simp [h2.ne']⟩
  · have h0 : orient2d t.a t.b t.c = 0 :=
      le_antisymm (not_lt.mp h2) (not_lt.mp h1)
    exact ⟨by simp [h2], by simp [h1], by simp [h0]⟩

/-- C4: `is_valid` holds exactly when the magnitude of the outer product of
the edge vectors (absolute value of the scalar in the plane, euclidean norm of
the cross product in space) strictly exceeds the default epsilon; the spec's
concrete examples hold in both embeddings. -/
theorem spec_C4_is_valid_epsilon :
    (∀ t : Triangle2, t.is_valid ↔
      default_epsilon < |Point2.outer (t.b.sub t.a) (t.c.sub t.a)|) ∧
    (∀ t : Triangle3, t.is_valid ↔
      ((default_epsilon : ℚ) : ℝ) <
        Real.sqrt ((Point3.dot (Point3.outer (t.b.sub t.a) (t.c.sub t.a))
          (Point3.outer (t.b.sub t.a) (t.c.sub t.a)) : ℚ) : ℝ)) ∧
    (Triangle2.mk ⟨0, 0⟩ ⟨1, 0⟩ ⟨0, 1⟩).is_valid ∧
    ¬ (Triangle2.mk ⟨0, 0⟩ ⟨1, 0⟩ ⟨2, 0⟩).is_valid ∧
    (Triangle3.mk ⟨0, 0, 0⟩ ⟨1, 0, 0⟩ ⟨0, 1, 0⟩).is_valid ∧
    ¬ (Triangle3.mk ⟨0, 0, 0⟩ ⟨1, 0, 0⟩ ⟨2, 0, 0⟩).is_valid := by
  have heps : (0 : ℝ) ≤ ((default_epsilon : ℚ) : ℝ) := by
    rw [show ((0:ℝ) = ((0:ℚ):ℝ)) by norm_num]
    exact_mod_cast (by norm_num [default_epsilon] : (0:ℚ) ≤ default_epsilon)
  refine ⟨fun t => Iff.rfl, fun t => ?_,
    by norm_num [Triangle2.is_valid, Point2.sub, Point2.outer, default_epsilon],
    by norm_num [Triangle2.is_valid, Point2.sub, Point2.outer, default_epsilon],
    by norm_num [Triangle3.is_valid, Point3.sub, Point3.outer, Point3.dot, default_epsilon],
    by norm_num [Triangle3.is_valid, Point3.sub, Point3.outer, Point3.dot, default_epsilon]⟩
  rw [Triangle3.is_valid, Real.lt_sqrt heps]
  constructor <;> intro h <;> exact_mod_cast h

/-- C7: the triple returned by `point_to_barycentric_coords` always sums to
one, because `u` is computed as `1 - v - w`. -/
theorem spec_C7_bary_sum_one :
    (∀ (t : Triangle2) (p : Point2),
      (t.point_to_barycentric_coords p).1 +
        (t.point_to_barycentric_coords p).2.1 +
        (t.point_to_barycentric_coords p).2.2 = 1) ∧
    (∀ (t : Triangle3) (p : Point3),
      (t.point_to_barycentric_coords p).1 +
        (t.point_to_barycentric_coords p).2.1 +
        (t.point_to_barycentric_coords p).2.2 = 1) := by
  constructor
  · intro t p
    simp only [Triangle2.point_to_barycentric_coords]
    ring
  · intro t p
    simp only [Triangle3.point_to_barycentric_coords]
    ring

/-- C10: a plane triangle whose area magnitude is below the validity epsilon
(`is_valid` is false) while its exact orientation is strictly positive
(`winding` is `some Ccw`): the epsilon test and the exact-sign test disagree
on near-degenerate triangles. -/
theorem spec_C10_valid_winding_disagree :
    ∃ t : Triangle2, ¬ t.is_valid ∧ t.winding = some Winding.Ccw :=
  ⟨Triangle2.mk ⟨0, 0⟩ ⟨1, 0⟩ ⟨0, 1 / 2 ^ 60⟩,
   by norm_num [Triangle2.is_valid, Point2.sub, Point2.outer, default_epsilon,
     abs_le],
   by norm_num [Triangle2.winding, orient2d]⟩

theorem Triangle2.eq_of_points2 {t t' : Triangle2}
    (h : [t.a, t.b, t.c] = [t'.a, t'.b, t'.c]) : t = t' := by
  cases t
  cases t'
  simp_all

theorem Triangle3.eq_of_points3 {t t' : Triangle3}
    (h : [t.a, t.b, t.c] = [t'.a, t'.b, t'.c]) : t = t' := by
  cases t
  cases t'
  simp_all

/-- The points of a normalized plane triangle, as a list, are the sorted
point list. -/
theorem Triangle2.normalize_list2 (t : Triangle2) :
    [t.normalize.a, t.normalize.b, t.normalize.c]
      = List.insertionSort Point2.le [t.a, t.b, t.c] := by
  have h : (List.insertionSort Point2.le [t.a, t.b, t.c]).length = 3 :=
    (List.perm_insertionSort Point2.le [t.a, t.b, t.c]).length_eq
  simp only [Triangle2.normalize]
  rcases hl : List.insertionSort Point2.le [t.a, t.b, t.c]
    with _ | ⟨p, _ | ⟨q, _ | ⟨r, rest⟩⟩⟩ <;> rw [hl] at h <;> simp_all

/-- The points of a normalized space triangle, as a list, are the sorted
point list. -/
theorem Triangle3.normalize_list3 (t : Triangle3) :
    [t.normalize.a, t.normalize.b, t.normalize.c]
      = List.insertionSort Point3.le [t.a, t.b, t.c] := by
  have h : (List.insertionSort Point3.le [t.a, t.b, t.c]).length = 3 :=
    (List.perm_insertionSort Point3.le [t.a, t.b, t.c]).length_eq
  simp only [Triangle3.normalize]
  rcases hl : List.insertionSort Point3.le [t.a, t.b, t.c]
    with _ | ⟨p, _ | ⟨q, _ | ⟨r, rest⟩⟩⟩ <;> rw [hl] at h <;> simp_all

theorem Triangle2.normalize_eq_of_perm2 {t t' : Triangle2}
    (h : [t.a, t.b, t.c].Perm [t'.a, t'.b, t'.c]) :
    t.normalize = t'.normalize := by
  apply Triangle2.eq_of_points2
  rw [Triangle2.normalize_list2, Triangle2.normalize_list2]
  exact List.eq_of_perm_of_sorted
    (((List.perm_insertionSort _ _).trans h).trans
      (List.perm_insertionSort _ _).symm)
    (List.sorted_insertionSort _ _) (List.sorted_insertionSort _ _)

theorem Triangle3.normalize_eq_of_perm3 {t t' : Triangle3}
    (h : [t.a, t.b, t.c].Perm [t'.a, t'.b, t'.c]) :
    t.normalize = t'.normalize := by
  apply Triangle3.eq_of_points3
  rw [Triangle3.normalize_list3, Triangle3.normalize_list3]
  exact List.eq_of_perm_of_sorted
    (((List.perm_insertionSort _ _).trans h).trans
      (List.perm_insertionSort _ _).symm)
    (List.sorted_insertionSort _ _) (List.sorted_insertionSort _ _)

theorem Triangle2.normalize_idem2 (t : Triangle2) :
    t.normalize.normalize = t.normalize := by
  apply Triangle2.eq_of_points2
  have hs : List.Sorted Point2.le
      [t.normalize.a, t.normalize.b, t.normalize.c] := by
    rw [Triangle2.normalize_list2]
    exact List.sorted_insertionSort _ _
  rw [Triangle2.normalize_list2 t.normalize]
  exact hs.insertionSort_eq

theorem Triangle3.normalize_idem3 (t : Triangle3) :
    t.normalize.normalize = t.normalize := by
  apply Triangle3.eq_of_points3
  have hs : List.Sorted Point3.le
      [t.normalize.a, t.normalize.b, t.normalize.c] := by
    rw [Triangle3.normalize_list3]
    exact List.sorted_insertionSort _ _
  rw [Triangle3.normalize_list3 t.normalize]
  exact hs.insertionSort_eq

/-- C8: `normalize` is idempotent, and any two triangles whose point lists are
permutations of each other normalize to the same triangle, in both
dimensions. -/
theorem spec_C8_normalize :
    (∀ t : Triangle2, t.normalize.normalize = t.normalize) ∧
    (∀ t t' : Triangle2, [t.a, t.b, t.c].Perm [t'.a, t'.b, t'.c] →
      t.normalize = t'.normalize) ∧
    (∀ t : Triangle3, t.normalize.normalize = t.normalize) ∧
    (∀ t t' : Triangle3, [t.a, t.b, t.c].Perm [t'.a, t'.b, t'.c] →
      t.normalize = t'.normalize) :=
  ⟨Triangle2.normalize_idem2, fun _ _ h => Triangle2.normalize_eq_of_perm2 h,
   Triangle3.normalize_idem3, fun _ _ h => Triangle3.normalize_eq_of_perm3 h⟩

/-- Witness for C8: two concrete orderings of the same three points
normalize identically. -/
theorem spec_C8_witness :
    [(Triangle2.mk ⟨1, 2⟩ ⟨0, 0⟩ ⟨3, 4⟩).a, (Triangle2.mk ⟨1, 2⟩ ⟨0, 0⟩ ⟨3, 4⟩).b,
      (Triangle2.mk ⟨1, 2⟩ ⟨0, 0⟩ ⟨3, 4⟩).c].Perm
      [(Triangle2.mk ⟨0, 0⟩ ⟨1, 2⟩ ⟨3, 4⟩).a, (Triangle2.mk ⟨0, 0⟩ ⟨1, 2⟩ ⟨3, 4⟩).b,
        (Triangle2.mk ⟨0, 0⟩ ⟨1, 2⟩ ⟨3, 4⟩).c] ∧
    (Triangle2.mk ⟨1, 2⟩ ⟨0, 0⟩ ⟨3, 4⟩).normalize
      = (Triangle2.mk ⟨0, 0⟩ ⟨1, 2⟩ ⟨3, 4⟩).normalize :=
  ⟨List.Perm.swap (⟨0, 0⟩ : Point2) ⟨1, 2⟩ [⟨3, 4⟩],
   spec_C8_normalize.2.1 (Triangle2.mk ⟨1, 2⟩ ⟨0, 0⟩ ⟨3, 4⟩)
     (Triangle2.mk ⟨0, 0⟩ ⟨1, 2⟩ ⟨3, 4⟩)
     (List.Perm.swap (⟨0, 0⟩ : Point2) ⟨1, 2⟩ [⟨3, 4⟩])⟩

theorem emitTriangle_fst (s : List ℕ × List Vertex) (t : Triangle3) :
    (emitTriangle s t).1
      = s.1 ++ [s.2.length, s.2.length + 1, s.2.length + 2] := by
  simp [emitTriangle, pushVertex]

theorem emitTriangle_snd_length (s : List ℕ × List Vertex) (t : Triangle3) :
    (emitTriangle s t).2.length = s.2.length + 3 := by
  simp [emitTriangle, pushVertex]

theorem range'_three_prepend (m k : ℕ) :
    [m, m + 1, m + 2] ++ List.range' (m + 3) k = List.range' m (k + 3) := by
  have h3 : List.range' m 3 = [m, m + 1, m + 2] := rfl
  have := List.range'_append m 3 k 1
  simpa [h3] using this

/-- Invariant of the vertex/index loop of `Geometry::new`: starting from any
state, the loop appends the run of indices `vertices.len(), ...` and three
vertices per triangle. -/
theorem foldl_emitTriangle (mesh : List Triangle3) (idxs : List ℕ)
    (vtxs : List Vertex) :
    (mesh.foldl emitTriangle (idxs, vtxs)).1
        = idxs ++ List.range' vtxs.length (3 * mesh.length) ∧
    (mesh.foldl emitTriangle (idxs, vtxs)).2.length
        = vtxs.length + 3 * mesh.length := by
  induction mesh generalizing idxs vtxs with
  | nil => simp
  | cons tri rest ih =>
    rw [List.foldl_cons]
    obtain ⟨h1, h2⟩ := ih (emitTriangle (idxs, vtxs) tri).1
      (emitTriangle (idxs, vtxs) tri).2
    rw [Prod.mk.eta] at h1 h2
    constructor
    · rw [h1, emitTriangle_fst, emitTriangle_snd_length, List.append_assoc,
        range'_three_prepend]
      congr 2
    · rw [h2, emitTriangle_snd_length]
      dsimp only [List.length_cons]
      omega
  
theorem buffers_spec (mesh : List Triangle3) :
    (mesh.foldl emitTriangle ([], [])).1 = List.range (3 * mesh.length) ∧
    (mesh.foldl emitTriangle ([], [])).2.length = 3 * mesh.length := by
  obtain ⟨h1, h2⟩ := foldl_emitTriangle mesh [] []
  constructor
  · rw [h1, List.range_eq_range']
    simp
  · simpa using h2

/-- C9: `Geometry::new` emits three fresh vertices and three sequential
indices per triangle — for `n` triangles the index buffer is `0, ..., 3n - 1`,
`num_indices = 3n` and the vertex buffer has `3n` entries, with no sharing —
and fails fatally (modelled as `none`) exactly when the index count exceeds
the `u32` index-buffer width. -/
theorem spec_C9_geometry_buffers :
    ∀ mesh : List Triangle3,
      (3 * mesh.length ≤ 4294967295 →
        ∃ g, Geometry.new mesh = some g ∧
          g.indices = List.range (3 * mesh.length) ∧
          g.num_indices = 3 * mesh.length ∧
          g.vertices.length = 3 * mesh.length) ∧
      (4294967295 < 3 * mesh.length → Geometry.new mesh = none) := by
  intro mesh
  obtain ⟨h1, h2⟩ := buffers_spec mesh
  have hlen : (mesh.foldl emitTriangle ([], [])).1.length = 3 * mesh.length := by
    rw [h1, List.length_range]
  constructor
  · intro hle
    refine ⟨⟨(mesh.foldl emitTriangle ([], [])).2,
             (mesh.foldl emitTriangle ([], [])).1,
             (mesh.foldl emitTriangle ([], [])).1.length⟩,
           ?_, h1, hlen, h2⟩
    simp only [Geometry.new]
    rw [if_pos (by rw [hlen]; exact hle)]
  · intro hgt
    simp only [Geometry.new]
    rw [if_neg (by rw [hlen]; omega)]

/-- Witness for C9: a one-triangle mesh yields `some` geometry with indices
`0, 1, 2`, while a mesh of `2 ^ 31` triangles (index count `3 * 2 ^ 31`,
which exceeds `u32::MAX`) makes the construction fail. -/
theorem spec_C9_witness :
    (3 * ([sampleTri] : List Triangle3).length ≤ 4294967295 ∧
      ∃ g, Geometry.new [sampleTri] = some g ∧
        g.indices = List.range (3 * ([sampleTri] : List Triangle3).length) ∧
        g.num_indices = 3 * ([sampleTri] : List Triangle3).length ∧
        g.vertices.length = 3 * ([sampleTri] : List Triangle3).length) ∧
    (4294967295 < 3 * (List.replicate (2 ^ 31) sampleTri).length ∧
      Geometry.new (List.replicate (2 ^ 31) sampleTri) = none) :=
  ⟨⟨by norm_num, (spec_C9_geometry_buffers [sampleTri]).1 (by norm_num)⟩,
   ⟨by norm_num [List.length_replicate],
    (spec_C9_geometry_buffers (List.replicate (2 ^ 31) sampleTri)).2
      (by norm_num [List.length_replicate])⟩⟩

/-- C5 (amended): the tolerance argument of `SurfaceMesh::from_surface` is
accepted by signature but ignored (the source binds it to `_`): the result is
identical for any two tolerance values, the assembler never consumes it, and
the surface's approximation step receives only the boundary. -/
theorem spec_C5_tolerance_unused :
    ∀ (delaunay : List (TriangulationPoint × TriangulationPoint) →
        List TriangulationPoint →
        List (TriangulationPoint × TriangulationPoint × TriangulationPoint))
      (surface : SurfaceGeometry) (boundary : Aabb2) (tol tol' : ℚ),
      SurfaceMesh.from_surface delaunay surface boundary tol
        = SurfaceMesh.from_surface delaunay surface boundary tol' :=
  fun _ _ _ _ _ => rfl

/-- Counterexample for C5: at a concrete surface and boundary, the distinct
tolerances `1` and `2` produce identical meshes — the tolerance is not passed
through to the approximation step, whose only input is the boundary. -/
theorem spec_C5_counterexample :
    SurfaceMesh.from_surface emptyDelaunay sampleSurface unitBoundary 1
      = SurfaceMesh.from_surface emptyDelaunay sampleSurface unitBoundary 2 ∧
    (1 : ℚ) ≠ 2 :=
  ⟨rfl, by norm_num⟩

/-- C6 (amended): the `points` collection of the returned mesh is exactly the
image of the surface's approximation under the triangulation-point conversion
— the four synthetic boundary corner points are excluded — in order and
without any deduplication performed by `from_surface` itself. -/
theorem spec_C6_points_interior :
    ∀ (delaunay : List (TriangulationPoint × TriangulationPoint) →
        List TriangulationPoint →
        List (TriangulationPoint × TriangulationPoint × TriangulationPoint))
      (surface : SurfaceGeometry) (boundary : Aabb2) (tol : ℚ),
      (SurfaceMesh.from_surface delaunay surface boundary tol).points
        = (surface.approximate boundary).map
            (TriangulationPoint.from_surface_point surface) :=
  fun _ _ _ _ => rfl

/-- Counterexample for C6: a surface whose approximation yields the same
sample twice produces a mesh whose `points` collection holds duplicates, so
the collection is not deduplicated. -/
theorem spec_C6_counterexample :
    ¬ (SurfaceMesh.from_surface emptyDelaunay duplicateSurface unitBoundary
        1).points.Nodup := by
  simp [SurfaceMesh.from_surface, duplicateSurface,
    TriangulationPoint.from_surface_point]
